import Mathlib

/-!
Verification of the ARN-to-CloudFormation exporter (`arnexport.py`).

Python strings are embedded as `List Char`; Python dicts as insertion-ordered
association lists with unique keys (`dGet`/`dSet`/`dUpdate` mirror subscript
read, subscript write and `dict.update`).  Fallible Python code (uncaught
exceptions, `sys.exit`) is embedded with `Except PyErr`.  The boto3 client and
the CloudFormation specification document are external collaborators and are
supplied as data in `Env`.
-/

set_option maxRecDepth 10000
set_option synthInstance.maxHeartbeats 1000000
set_option maxHeartbeats 1000000

/-- Number of occurrences of a character in a string, as in Python `str.count`. -/
def countc (c : Char) : List Char → Nat
  | [] => 0
  | x :: xs => (if x = c then 1 else 0) + countc c xs

/-- Replace every occurrence of character `a` by `b`, as in `str.replace(a, b)`
for one-character arguments. -/
def replacec (a b : Char) : List Char → List Char
  | [] => []
  | x :: xs => (if x = a then b else x) :: replacec a b xs

/-- Remove every occurrence of a character, as in `str.replace(c, "")`. -/
def removec (c : Char) : List Char → List Char
  | [] => []
  | x :: xs => if x = c then removec c xs else x :: removec c xs

/-- Split on a separator character, as in Python `str.split(sep)`: the result
is always nonempty and empty fields are kept. -/
def splitc (sep : Char) : List Char → List (List Char)
  | [] => [[]]
  | c :: cs =>
    match splitc sep cs with
    | [] => [[]]
    | g :: gs => if c = sep then [] :: g :: gs else (c :: g) :: gs

/-- Python `str.lower` (ASCII). -/
def pyLower (s : List Char) : List Char := s.map Char.toLower

/-- Python `str.title` (ASCII): the first letter of every alphabetic run is
upper-cased, the rest lower-cased. -/
def pyTitleGo : Bool → List Char → List Char
  | _, [] => []
  | prevAlpha, c :: cs =>
    (if c.isAlpha then (if prevAlpha then c.toLower else c.toUpper) else c)
      :: pyTitleGo c.isAlpha cs

/-- Python `str.title` on a whole string. -/
def pyTitle (s : List Char) : List Char := pyTitleGo false s

/-- Python `s.find(pat) >= 0`: does `pat` occur as a contiguous substring? -/
def isSubstr (pat s : List Char) : Bool := s.tails.any (fun t => pat.isPrefixOf t)

/-- Python list indexing `l[i]`: a negative index wraps around once
(`l[len(l)+i]`); an index out of range raises `IndexError` (here `none`). -/
def pyGet (l : List α) (i : Int) : Option α :=
  let j : Int := if i < 0 then i + l.length else i
  if j < 0 then none else l.get? j.toNat

/-- Python dict read `d[k]` (as an `Option`; callers decide whether a missing
key is a `KeyError` or was guarded by `k in d`). -/
def dGet : List (List Char × α) → List Char → Option α
  | [], _ => none
  | (k', v) :: rest, k => if k' = k then some v else dGet rest k

/-- Python dict write `d[k] = v`: overwrite in place, else append. -/
def dSet : List (List Char × α) → List Char → α → List (List Char × α)
  | [], k, v => [(k, v)]
  | (k', v') :: rest, k, v =>
    if k' = k then (k, v) :: rest else (k', v') :: dSet rest k v

/-- Python `d.update(other)`: write every entry of `other` into `d`. -/
def dUpdate (m other : List (List Char × α)) : List (List Char × α) :=
  other.foldl (fun acc kv => dSet acc kv.1 kv.2) m

/-- Python `d.pop(k, None)`: the dict without key `k`. -/
def dRemove (m : List (List Char × α)) (k : List Char) : List (List Char × α) :=
  m.filter (fun kv => !(kv.1 = k : Bool))

/-- Membership test `k in d`. -/
def hasKey (m : List (List Char × α)) (k : List Char) : Bool := (dGet m k).isSome

/-- The failure conditions of the program: the uncaught Python exceptions
(`IndexError`, `KeyError`, `TypeError`, `AttributeError`, an uncaught boto3
client error) and `sys.exit` with a message.  `fuelOut` marks exhaustion of
the recursion fuel of the expansion walk. -/
inductive PyErr where
  | indexError
  | keyError
  | typeError
  | attributeError
  | uncaughtClientError
  | exit : List Char → PyErr
  | fuelOut
  deriving Repr, DecidableEq

/-- A JSON-like value as handled by the script: strings, dicts, lists, and
other scalars (numbers, booleans, ...) abstracted by a tag. -/
inductive Val where
  | vstr : List Char → Val
  | vdict : List (List Char × Val) → Val
  | vlist : List Val → Val
  | vother : Nat → Val
  deriving Repr

/-- A string-to-string dict (the parsed ARN map). -/
abbrev SDict := List (List Char × List Char)

/-- A string-to-value dict (fetched resources, CloudFormation resources). -/
abbrev ValDict := List (List Char × Val)

/-- The mutable fields of an `ARNExport` instance (`__init__`): the
`func_type` flag, the input ARN string, its parsed map, and the two
accumulators `cf_resources` and `raw`. -/
structure St where
  func_type : Nat
  profile_name : List Char
  arn_str : List Char
  arn_map : SDict
  cf_resources : ValDict
  raw : ValDict
  deriving Repr

/-- The exception a boto3 operation call may raise: `ParamValidationError`
(caught by the script) or any other client error (uncaught). -/
inductive CallExn where
  | paramValidation
  | clientError
  deriving Repr, DecidableEq

/-- A boto3 client as the script uses it: the set of operation names it has
(`getattr` succeeds exactly on these) and the behaviour of invoking an
operation on keyword arguments. -/
structure AwsClient where
  ops : List (List Char)
  call : List Char → SDict → Except CallExn ValDict

/-- `getattr(client, name)` succeeds iff the client has the operation. -/
def hasOp (c : AwsClient) (n : List Char) : Bool := c.ops.any (fun m => m = n)

/-- The external collaborators: the CloudFormation specification document
(its `ResourceTypes` table, in declared key order, each entry carrying the
keys of its `Properties` dict) and the cloud provider (a client per service
name; profile and region only select the session and are irrelevant to the
returned client's data behaviour). -/
structure Env where
  resourceTypes : List (List Char × List (List Char))
  clientFor : List Char → AwsClient

/-- The result of `get_resource_type`: the canonical `Type` key and the keys
of its `Properties`. -/
structure RType where
  typeName : List Char
  props : List (List Char)
  deriving Repr

/-- The result of `get_resource_from_arn`: the fetched resource, the updated
instance state, and the list of operation invocations performed. -/
structure FetchOut where
  resource : ValDict
  st : St
  calls : List (List Char × SDict)
  deriving Repr

/-- The canonical ARN prefix (`arnexport.py` line 132). -/
def arn_common : List Char := ("arn:partition:service:region:account-id:").toList

/-- The seven suffix templates (`arnexport.py` lines 133-141). -/
def arn_resources : List (List Char) :=
  [("resource").toList,
   ("resourcetype:resource").toList,
   ("resourcetype:resource:qualifier").toList,
   ("resourcetype/resource").toList,
   ("resourcetype/resource:qualifier").toList,
   ("").toList,
   ("resourcetype/resource/qualifier").toList]

/-- The shape index `(arn_str.count(":") - arn_common.count(":")) +
arn_str.count("/") * 3` (`arnexport.py` line 143), as an integer since Python
subtraction may go negative. -/
def shapeIndex (s : List Char) : Int :=
  ((countc ':' s : Int) - (countc ':' arn_common : Int)) + (countc '/' s : Int) * 3

/-- The assignment loop `for ndx, value in enumerate(...): arn_map[arn_keys[ndx]] = value`
(`arnexport.py` lines 146-148): walks the values positionally, raising
`IndexError` when there are more values than keys. -/
def assignLoop : List (List Char) → List (List Char) → SDict → Except PyErr SDict
  | _, [], m => .ok m
  | [], _ :: _, _ => .error .indexError
  | k :: ks, v :: vs, m => assignLoop ks vs (dSet m k v)

/-- `get_arn_map` (`arnexport.py` lines 130-150): select a suffix template by
the delimiter-count index, normalise `/` to `:` in both the key template and
the input, split both on `:`, and zip positionally into a dict. -/
def get_arn_map (arn_str : List Char) : Except PyErr SDict :=
  match pyGet arn_resources (shapeIndex arn_str) with
  | none => .error .indexError
  | some arn_suffix =>
    assignLoop (splitc ':' (replacec '/' ':' (arn_common ++ arn_suffix)))
      (splitc ':' (replacec '/' ':' arn_str)) []

/-- The map a method argument `arn_str=''` denotes: `self.arn_map` when the
argument is empty, else a fresh parse (`arnexport.py` lines 93, 142, 164). -/
def argOrSelfMap (st : St) (arn_str : List Char) : Except PyErr SDict :=
  if arn_str = [] then .ok st.arn_map else get_arn_map arn_str

/-- `get_dict_value` (`arnexport.py` lines 48-58): crawl the dict in iteration
order; an entry under the searched key wins immediately, otherwise dict-valued
entries are searched recursively, first match wins.  Only `dict` values are
descended into. -/
def get_dict_value (search_key : List Char) : ValDict → Option Val
  | [] => none
  | (k, v) :: rest =>
    if k = search_key then some v
    else
      match v with
      | .vdict d =>
        match get_dict_value search_key d with
        | some x => some x
        | none => get_dict_value search_key rest
      | _ => get_dict_value search_key rest

/-- The loop of `get_resource_type` (`arnexport.py` lines 74-79): first key of
the specification table whose lower-casing equals the lower-cased target. -/
def rtLookup : List (List Char × List (List Char)) → List Char → Option RType
  | [], _ => none
  | (key, props) :: rest, api_type =>
    if pyLower key = pyLower api_type then some ⟨key, props⟩ else rtLookup rest api_type

/-- `get_resource_type` (`arnexport.py` lines 70-79): build
`AWS::<service>::<resourcetype>` (subscripts may raise `KeyError`) and scan
the specification document case-insensitively. -/
def get_resource_type (env : Env) (arn_map : SDict) : Except PyErr (Option RType) :=
  match dGet arn_map (("service").toList), dGet arn_map (("resourcetype").toList) with
  | some svc, some rt =>
    .ok (rtLookup env.resourceTypes
      ((("AWS::").toList ++ svc ++ ("::").toList ++ rt)))
  | _, _ => .error .keyError

/-- `get_resource_name` (`arnexport.py` lines 82-88): the `resource` field
(`KeyError` if absent), replaced by the `qualifier` field when that key is
present and `func_type` is 0, with all hyphens removed. -/
def get_resource_name (st : St) (arn_map : SDict) : Except PyErr (List Char) :=
  match dGet arn_map (("resource").toList) with
  | none => .error .keyError
  | some nm =>
    match dGet arn_map (("qualifier").toList) with
    | some q => .ok (removec '-' (if st.func_type = 0 then q else nm))
    | none => .ok (removec '-' nm)

/-- `get_aws_client` (`arnexport.py` lines 121-127): reads `region` (with the
`us-east-1` default for an empty region) and `service` (subscripts may raise
`KeyError`); the region only parametrises the session, so the returned client
is the environment client for the service. -/
def get_aws_client (env : Env) (arn_map : SDict) : Except PyErr AwsClient :=
  match dGet arn_map (("region").toList) with
  | none => .error .keyError
  | some r =>
    let _region := if r = [] then ("us-east-1").toList else r
    match dGet arn_map (("service").toList) with
    | none => .error .keyError
    | some svc => .ok (env.clientFor svc)

/-- The tail of `get_resource_from_arn` shared by both operation choices
(`arnexport.py` lines 179-192): build the single keyword argument
`<Resourcetype.title()>Name` valued by `get_resource_name`, invoke the
operation (a `ParamValidationError` becomes a `sys.exit`), drop
`ResponseMetadata`, and merge the result into `self.raw`. -/
def fetchCall (aws : AwsClient) (funcName : List Char) (st : St) (arn_map : SDict)
    (rt : List Char) : Except PyErr FetchOut :=
  let arg_name := pyTitle rt ++ ("Name").toList
  match get_resource_name st arn_map with
  | .error e => .error e
  | .ok arg_key =>
    match aws.call funcName [(arg_name, arg_key)] with
    | .error .paramValidation =>
      .error (.exit (("I don\x27t have a way of retrieving this resource for export.").toList))
    | .error .clientError => .error .uncaughtClientError
    | .ok resource0 =>
      let resource := dRemove resource0 (("ResponseMetadata").toList)
      .ok { resource := resource,
            st := { st with raw := dUpdate st.raw resource },
            calls := [(funcName, [(arg_name, arg_key)])] }

/-- `get_resource_from_arn` (`arnexport.py` lines 162-192): resolve the map,
build the client, `sys.exit` when the map has no `resourcetype`, prefer the
`get_<resourcetype>` operation and fall back to `describe_<resourcetype>s`
(setting `func_type` to 1 before the argument is built; a missing fallback is
a bare `getattr`, hence `AttributeError`; the guarded `sys.exit` on line 177
is unreachable because `getattr` raises instead of returning `None`), then
perform the single call. -/
def get_resource_from_arn (env : Env) (st : St) (arn_str : List Char) :
    Except PyErr FetchOut :=
  match argOrSelfMap st arn_str with
  | .error e => .error e
  | .ok arn_map =>
    match get_aws_client env arn_map with
    | .error e => .error e
    | .ok aws =>
      match dGet arn_map (("resourcetype").toList) with
      | none =>
        .error (.exit ((("I don\x27t have a way of exporting this resource: ").toList)
          ++ arn_str ++ st.arn_str))
      | some rt =>
        let getN := ("get_").toList ++ rt
        if hasOp aws getN then fetchCall aws getN st arn_map rt
        else
          let desN := ("describe_").toList ++ rt ++ ("s").toList
          if hasOp aws desN then
            fetchCall aws desN { st with func_type := 1 } arn_map rt
          else .error .attributeError

mutual

/-- `format_resource` (`arnexport.py` lines 91-118): resolve the type (a
not-found result returns `None`), derive the resource name, then fill the
`Properties` of the CloudFormation resource by the property loop.  The
result pairs the derived name with the one-entry resource dict, as in the
returned `{'name': ..., 'resource': ...}`. -/
def format_resource (env : Env) (fuel : Nat) (st : St) (resource : ValDict)
    (arn_str : List Char) : Except PyErr (Option (List Char × ValDict) × St) :=
  match fuel with
  | 0 => .error .fuelOut
  | fuel' + 1 =>
    match argOrSelfMap st arn_str with
    | .error e => .error e
    | .ok arn_map =>
      match get_resource_type env arn_map with
      | .error e => .error e
      | .ok none => .ok (none, st)
      | .ok (some resource_type) =>
        match get_resource_name st arn_map with
        | .error e => .error e
        | .ok resource_name =>
          match props_loop env fuel' resource_type.props resource st [] with
          | .error e => .error e
          | .ok (props, st') =>
            .ok (some (resource_name,
              [(resource_name,
                Val.vdict [((("Type").toList), Val.vstr resource_type.typeName),
                           ((("Properties").toList), Val.vdict props)])]), st')
  termination_by structural fuel

/-- The property loop of `format_resource` (`arnexport.py` lines 107-116):
for each declared property key, search the fetched resource; a missing key is
skipped; a string value containing `arn:aws` is replaced by the reference
returned from `expand_arn`; any other found value is stored as-is. -/
def props_loop (env : Env) (fuel : Nat) (keys : List (List Char))
    (resource : ValDict) (st : St) (acc : ValDict) : Except PyErr (ValDict × St) :=
  match fuel with
  | 0 => .error .fuelOut
  | fuel' + 1 =>
    match keys with
    | [] => .ok (acc, st)
    | key :: rest =>
      match get_dict_value key resource with
      | none => props_loop env fuel' rest resource st acc
      | some v =>
        match v with
        | .vstr s =>
          if isSubstr (("arn:aws").toList) s then
            match expand_arn env fuel' st s with
            | .error e => .error e
            | .ok (refstr, st') =>
              props_loop env fuel' rest resource st' (dSet acc key (.vstr refstr))
          else props_loop env fuel' rest resource st (dSet acc key v)
        | _ => props_loop env fuel' rest resource st (dSet acc key v)
  termination_by structural fuel

/-- `expand_arn` (`arnexport.py` lines 61-67): fetch and format the nested
resource, merge its dict into `self.cf_resources`, and return the string
`!Ref <name>`.  A `None` from `format_resource` is subscripted, raising
`TypeError`.  The fuel parameter is a modelling artifact bounding the
(otherwise unbounded) recursion; every recursive step consumes one unit. -/
def expand_arn (env : Env) (fuel : Nat) (st : St) (arn_str : List Char) :
    Except PyErr (List Char × St) :=
  match fuel with
  | 0 => .error .fuelOut
  | fuel' + 1 =>
    match get_resource_from_arn env st arn_str with
    | .error e => .error e
    | .ok fo =>
      match format_resource env fuel' fo.st fo.resource arn_str with
      | .error e => .error e
      | .ok (none, _) => .error .typeError
      | .ok (some (name, cfres), st') =>
        .ok ((("!Ref ").toList ++ name),
          { st' with cf_resources := dUpdate st'.cf_resources cfres })
  termination_by structural fuel

end

/-- `write_yaml_template` (`arnexport.py` lines 195-223): fetch and format the
top-level resource (subscripting the `None` of an unresolved type raises
`TypeError`), merge it into `cf_resources`, then write the expanded and the
raw template files.  The first component lists the files written (name and
`Resources`-bearing document); any failure happens before the writes. -/
def write_yaml_template (env : Env) (fuel : Nat) (st : St) :
    List (List Char × ValDict) × Except PyErr St :=
  match get_resource_from_arn env st [] with
  | .error e => ([], .error e)
  | .ok fo =>
    match format_resource env fuel fo.st fo.resource [] with
    | .error e => ([], .error e)
    | .ok (none, _) => ([], .error .typeError)
    | .ok (some (name, cfres), st') =>
      let st'' := { st' with cf_resources := dUpdate st'.cf_resources cfres }
      match dGet st''.arn_map (("service").toList),
            dGet st''.arn_map (("resourcetype").toList) with
      | some svc, some rt =>
        let descr := name ++ ("_").toList ++ svc ++ ("_").toList ++ rt
        let headerOf : ValDict → ValDict := fun resources =>
          [((("AWSTemplateFormatVersion").toList), Val.vstr (("2010-09-09").toList)),
           ((("Description").toList),
            Val.vstr ((("Exported ").toList) ++ descr ++ ((" from ").toList) ++ st''.arn_str)),
           ((("Resources").toList), Val.vdict resources)]
        ([((("templates/").toList ++ descr ++ ((".yml").toList)), headerOf st''.cf_resources),
          ((("templates/").toList ++ descr ++ (("_raw.yml").toList)), headerOf st''.raw)],
         .ok st'')
      | _, _ => ([], .error .keyError)

/-- Interleave a list of delimiter characters between segments (the inverse of
splitting); used to state which strings match an ARN shape. -/
def joinWith (ds : List Char) (ss : List (List Char)) : List Char :=
  match ss, ds with
  | [], _ => []
  | [s], _ => s
  | s :: ss', [] => s ++ joinWith [] ss'
  | s :: ss', d :: ds' => s ++ d :: joinWith ds' ss'

/-- The delimiter characters of a template, in order. -/
def extractDelims (l : List Char) : List Char :=
  l.filter (fun c => ((c = ':' : Bool)) || ((c = '/' : Bool)))

/-- The delimiters of the full key template of shape `i` (canonical prefix
followed by the suffix template at position `i`). -/
def shapeDelims (i : Nat) : List Char :=
  extractDelims (arn_common ++ ((arn_resources.get? i).getD []))

/-- The key list of shape `i`, exactly as `get_arn_map` computes it: the full
template with `/` normalised to `:`, split on `:`. -/
def shapeKeys (i : Nat) : List (List Char) :=
  splitc ':' (replacec '/' ':' (arn_common ++ ((arn_resources.get? i).getD [])))

/-- Modelled from the spec: the field list the specification declares for each
shape (prefix fields `partition`, `service`, `region`, `account-id` plus the
suffix fields), preceded by the literal first template key `arn` that the code
also stores. -/
def arnFieldNames (i : Nat) : List (List Char) :=
  [("arn").toList, ("partition").toList, ("service").toList, ("region").toList,
   ("account-id").toList] ++
  (match i with
   | 0 => [("resource").toList]
   | 1 => [("resourcetype").toList, ("resource").toList]
   | 2 => [("resourcetype").toList, ("resource").toList, ("qualifier").toList]
   | 3 => [("resourcetype").toList, ("resource").toList]
   | 4 => [("resourcetype").toList, ("resource").toList, ("qualifier").toList]
   | 6 => [("resourcetype").toList, ("resource").toList, ("qualifier").toList]
   | _ => [])

/-- Modelled from the spec: the matches of the property search in the
deterministic depth-first pre-order the spec describes (entry itself first,
then its dict-valued children, then the following entries), restricted - as
the code is - to descent through dict values. -/
def searchMatches (search_key : List Char) : ValDict → List Val
  | [] => []
  | (k, v) :: rest =>
    (if k = search_key then [v] else []) ++
    (match v with
     | .vdict d => searchMatches search_key d
     | _ => []) ++ searchMatches search_key rest

mutual

/-- Modelled from the spec: does a key occur at any nesting depth within the
fetched resource tree, descending through dicts and lists alike. -/
def occursKey (search_key : List Char) : ValDict → Bool
  | [] => false
  | (k, v) :: rest =>
    ((k = search_key : Bool)) || occursKeyVal search_key v || occursKey search_key rest

/-- Modelled from the spec: key occurrence inside one value. -/
def occursKeyVal (search_key : List Char) : Val → Bool
  | .vdict d => occursKey search_key d
  | .vlist l => occursKeyList search_key l
  | _ => false

/-- Modelled from the spec: key occurrence inside a list of values. -/
def occursKeyList (search_key : List Char) : List Val → Bool
  | [] => false
  | v :: vs => occursKeyVal search_key v || occursKeyList search_key vs

end

/-- Modelled from the spec: resource-type resolution as the spec words it -
compare the target case-insensitively against every key in the specification
document in declared key order, first match wins. -/
def specFirstMatch (table : List (List Char × List (List Char))) (target : List Char) :
    Option RType :=
  (table.find? (fun kv => pyLower kv.1 = pyLower target)).map (fun kv => ⟨kv.1, kv.2⟩)

/-- A fresh instance state, as `__init__` builds it (`func_type = 0`, empty
accumulators), with the parsed map supplied. -/
def mkSt (ft : Nat) (astr : List Char) (amap : SDict) : St :=
  { func_type := ft, profile_name := ("default").toList, arn_str := astr,
    arn_map := amap, cf_resources := [], raw := [] }

/-- A client with no operations (every `getattr` fails). -/
def noClient : AwsClient := { ops := [], call := fun _ _ => .error .clientError }

/-- Example ARN map with a qualifier and hyphenated fields. -/
def mapQual : SDict :=
  [(("region").toList, ("us-east-1").toList),
   (("service").toList, ("lambda").toList),
   (("resourcetype").toList, ("function").toList),
   (("resource").toList, ("my-res").toList),
   (("qualifier").toList, ("my-Q").toList)]

/-- Example client exposing only `get_function`. -/
def clientGet : AwsClient :=
  { ops := [("get_function").toList],
    call := fun _ _ => .ok [(("FunctionName").toList, Val.vstr (("my-res").toList))] }

/-- Example client exposing only `describe_functions`. -/
def clientDescribe : AwsClient :=
  { ops := [("describe_functions").toList], call := fun _ _ => .ok [] }

/-- Environment for the fetch examples: no specification entries, a fixed
client for every service. -/
def envGet : Env := { resourceTypes := [], clientFor := fun _ => clientGet }

/-- Environment whose only client has only the describe-plural operation. -/
def envDescribe : Env := { resourceTypes := [], clientFor := fun _ => clientDescribe }

/-- Example IAM role ARN (shape 3: `resourcetype/resource`). -/
def arnRole : List Char := ("arn:aws:iam::123456789012:role/myRole").toList

/-- Example Lambda function ARN (shape 1: `resourcetype:resource`). -/
def arnFn : List Char := ("arn:aws:lambda:us-east-1:123456789012:function:myFunction").toList

/-- Example S3 bucket ARN (shape 0: `resource` - no resource type). -/
def arnBucket : List Char := ("arn:aws:s3:us-east-1:123456789012:mybucket").toList

/-- Environment for the expansion example: one specification entry for the
role type, a client answering `get_role`. -/
def envRole : Env :=
  { resourceTypes := [(("AWS::Iam::Role").toList, [("RoleName").toList])],
    clientFor := fun _ =>
      { ops := [("get_role").toList],
        call := fun _ _ => .ok [(("RoleName").toList, Val.vstr (("myRole").toList))] } }

/-- The state resulting from fetching `arnRole` in `envRole` from a fresh
empty-map state. -/
def stRole : St := mkSt 0 [] []

/-- The fetch result of `arnRole` in `envRole`. -/
def foRole : FetchOut :=
  { resource := [(("RoleName").toList, Val.vstr (("myRole").toList))],
    st := { stRole with raw := [(("RoleName").toList, Val.vstr (("myRole").toList))] },
    calls := [(("get_role").toList,
               [(("RoleName").toList, ("myRole").toList)])] }

/-- The CloudFormation resource dict that formatting the fetched role yields. -/
def cfRole : ValDict :=
  [(("myRole").toList,
    Val.vdict [((("Type").toList), Val.vstr (("AWS::Iam::Role").toList)),
               ((("Properties").toList),
                Val.vdict [(("RoleName").toList, Val.vstr (("myRole").toList))])])]

/-- A resource tree whose key `k` sits inside a dict nested in a list. -/
def ctree : ValDict :=
  [(("a").toList, Val.vlist [Val.vdict [(("k").toList, Val.vstr (("x").toList))]])]

/-- A resource tree with key `k` both nested (first, in iteration order) and at
top level. -/
def dNested : ValDict :=
  [(("a").toList, Val.vdict [(("k").toList, Val.vstr (("x").toList))]),
   (("k").toList, Val.vstr (("y").toList))]

/-- The seven segments of the example Lambda ARN (shape 1). -/
def segsFn : List (List Char) :=
  [("arn").toList, ("aws").toList, ("lambda").toList, ("us-east-1").toList,
   ("123456789012").toList, ("function").toList, ("myFunction").toList]

/-- A string with twelve colons: its shape index is 7, out of range. -/
def manyColons : List Char := ("a:b:c:d:e:f:g:h:i:j:k:l:m").toList

/-- A fresh state over the qualified example map. -/
def stQual : St := mkSt 0 [] mapQual

/-- The fetch result of `stQual` against the get-only client: the qualifier,
hyphen-stripped, is the keyword-argument value. -/
def foQualGet : FetchOut :=
  { resource := [(("FunctionName").toList, Val.vstr (("my-res").toList))],
    st := { stQual with raw := [(("FunctionName").toList, Val.vstr (("my-res").toList))] },
    calls := [(("get_function").toList, [(("FunctionName").toList, ("myQ").toList)])] }

/-- The fetch result of `stQual` against the describe-only client: the
fallback flips `func_type` to 1 before the argument is built, so the resource
field, hyphen-stripped, is the keyword-argument value. -/
def foQualDescribe : FetchOut :=
  { resource := [],
    st := { stQual with func_type := 1 },
    calls := [(("describe_functions").toList, [(("FunctionName").toList, ("myres").toList)])] }

/-- Environment holding a one-entry specification table for the Lambda
function type. -/
def envLambda : Env :=
  { resourceTypes := [(("AWS::Lambda::Function").toList,
      [("FunctionName").toList, ("Role").toList, ("Handler").toList])],
    clientFor := fun _ => noClient }

/-- ARN map naming the lambda service and function resource type, lower-case. -/
def mLF1 : SDict :=
  [(("service").toList, ("lambda").toList),
   (("resourcetype").toList, ("function").toList)]

/-- ARN map naming the same pair in canonical casing. -/
def mLF2 : SDict :=
  [(("service").toList, ("Lambda").toList),
   (("resourcetype").toList, ("Function").toList)]

/-- A one-entry resource tree without the searched keys. -/
def rA : ValDict := [(("A").toList, Val.vstr (("x").toList))]

/-- The parsed map of `arnBucket` (shape 0: no `resourcetype` key). -/
def mBucket : SDict :=
  [(("arn").toList, ("arn").toList), (("partition").toList, ("aws").toList),
   (("service").toList, ("s3").toList), (("region").toList, ("us-east-1").toList),
   (("account-id").toList, ("123456789012").toList),
   (("resource").toList, ("mybucket").toList)]

/-- A fetched resource holding a nested role ARN under `Role`. -/
def rRole : ValDict := [(("Role").toList, Val.vstr arnRole)]

/-- A fetched resource holding a plain string under `Handler`. -/
def rHandler : ValDict := [(("Handler").toList, Val.vstr (("index.handler").toList))]

/-- The state after expanding `arnRole` from `stRole`: the child resource
merged into `cf_resources`, its fetch merged into `raw`. -/
def stExp : St :=
  { stRole with cf_resources := cfRole,
                raw := [(("RoleName").toList, Val.vstr (("myRole").toList))] }

/-- The fetch result of a state whose flag is already 1 against the get-only
client: the argument value comes from the resource field. -/
def foQualGet1 : FetchOut :=
  { resource := [(("FunctionName").toList, Val.vstr (("my-res").toList))],
    st := { mkSt 1 [] mapQual with
            raw := [(("FunctionName").toList, Val.vstr (("my-res").toList))] },
    calls := [(("get_function").toList, [(("FunctionName").toList, ("myres").toList)])] }

/-- The post-fetch role state with the flag set to 1. -/
def stRole1 : St := { foRole.st with func_type := 1 }

/-- The parsed map of `arnFn` (shape 1). -/
def mFn : SDict :=
  [(("arn").toList, ("arn").toList), (("partition").toList, ("aws").toList),
   (("service").toList, ("lambda").toList), (("region").toList, ("us-east-1").toList),
   (("account-id").toList, ("123456789012").toList),
   (("resourcetype").toList, ("function").toList),
   (("resource").toList, ("myFunction").toList)]

/-! ### Helper lemmas -/

/-- Unfolding of `dSet` on the empty dict. -/
theorem dSet_nil {α : Type} (k : List Char) (v : α) : dSet [] k v = [(k, v)] := rfl

/-- Unfolding of `dSet` on a nonempty dict. -/
theorem dSet_cons {α : Type} (k' : List Char) (v' : α) (rest : List (List Char × α))
    (k : List Char) (v : α) :
    dSet ((k', v') :: rest) k v =
      if k' = k then (k, v) :: rest else (k', v') :: dSet rest k v := rfl

/-- Keys present after a dict write: the written key or an old key. -/
theorem mem_map_fst_dSet {α : Type} (m : List (List Char × α)) (k x : List Char) (v : α)
    (h : x ∈ (dSet m k v).map Prod.fst) : x ∈ m.map Prod.fst ∨ x = k := by
  induction m with
  | nil =>
    rw [dSet_nil] at h
    simp at h
    right; exact h
  | cons kv rest ih =>
    obtain ⟨k', v'⟩ := kv
    by_cases hk : k' = k
    · rw [dSet_cons, if_pos hk] at h
      simp only [List.map_cons, List.mem_cons] at h
      rcases h with h | h
      · right; exact h
      · left; simp [h]
    · rw [dSet_cons, if_neg hk] at h
      simp only [List.map_cons, List.mem_cons] at h
      rcases h with h | h
      · left; simp [h]
      · rcases ih h with h' | h'
        · left; simp [h']
        · right; exact h'

/-- The crawl of `get_dict_value` returns the head of the depth-first
pre-order match list. -/
theorem gdv_eq_searchMatches (k : List Char) (d : ValDict) :
    get_dict_value k d = (searchMatches k d).head? := by
  induction d using get_dict_value.induct k with
  | case1 => simp [get_dict_value, searchMatches]
  | case2 v rest => cases v <;> simp [get_dict_value, searchMatches]
  | case3 k' rest hne d x hx ih =>
    have h1 : (searchMatches k d).head? = some x := by rw [← ih]; exact hx
    simp [get_dict_value, searchMatches, hne, hx]
    cases hsm : searchMatches k d with
    | nil => rw [hsm] at h1; simp at h1
    | cons y ys =>
      rw [hsm] at h1; simp at h1
      subst h1; rfl
  | case4 k' rest hne d hd ihd ihrest =>
    rw [hd] at ihd
    have hnil : searchMatches k d = [] := by
      cases hsm : searchMatches k d with
      | nil => rfl
      | cons y ys => rw [hsm] at ihd; simp at ihd
    simp [get_dict_value, searchMatches, hne, hd, hnil, ihrest]
  | case5 k' v rest hne hnd ih =>
    cases v with
    | vdict d => exact absurd rfl (hnd d)
    | vstr s => simp [get_dict_value, searchMatches, hne, ih]
    | vlist l => simp [get_dict_value, searchMatches, hne, ih]
    | vother n => simp [get_dict_value, searchMatches, hne, ih]

/-- A key that occurs nowhere in the whole tree (lists included) is not found
by the crawl. -/
theorem gdv_none_of_not_occurs (k : List Char) (d : ValDict)
    (h : occursKey k d = false) : get_dict_value k d = none := by
  induction d using get_dict_value.induct k with
  | case1 => simp [get_dict_value]
  | case2 v rest => simp [occursKey] at h
  | case3 k' rest hne d x hx ih =>
    simp [occursKey, occursKeyVal] at h
    rw [ih h.1.2] at hx
    cases hx
  | case4 k' rest hne d hd ihd ihrest =>
    simp [occursKey, occursKeyVal] at h
    simp [get_dict_value, hne, hd, ihrest h.2]
  | case5 k' v rest hne hnd ih =>
    simp [occursKey] at h
    cases v with
    | vdict d => exact absurd rfl (hnd d)
    | vstr s => simp [get_dict_value, hne, ih h.2]
    | vlist l => simp [get_dict_value, hne, ih h.2]
    | vother n => simp [get_dict_value, hne, ih h.2]

/-- A property key the search cannot find is never written into the
accumulated properties dict by the property loop. -/
theorem props_loop_omits (env : Env) (key : List Char) (resource : ValDict)
    (hnone : get_dict_value key resource = none) :
    ∀ (fuel : Nat) (keys : List (List Char)) (st : St) (acc : ValDict)
      (out : ValDict) (st' : St),
      key ∉ acc.map Prod.fst →
      props_loop env fuel keys resource st acc = .ok (out, st') →
      key ∉ out.map Prod.fst := by
  intro fuel
  induction fuel with
  | zero =>
    intro keys st acc out st' hacc h
    simp [props_loop] at h
  | succ n ih =>
    intro keys st acc out st' hacc h
    cases keys with
    | nil =>
      simp [props_loop] at h
      rw [← h.1]; exact hacc
    | cons k' rest =>
      rw [props_loop] at h
      cases hkv : get_dict_value k' resource with
      | none =>
        rw [hkv] at h
        exact ih rest st acc out st' hacc h
      | some v =>
        have hkne : k' ≠ key := by
          intro e; rw [e, hnone] at hkv; cases hkv
        have hstep : ∀ (w : Val), key ∉ (dSet acc k' w).map Prod.fst := by
          intro w hmem
          rcases mem_map_fst_dSet acc k' key w hmem with hm | hm
          · exact hacc hm
          · exact hkne hm.symm
        rw [hkv] at h
        cases v with
        | vstr s =>
          by_cases hsub : isSubstr (("arn:aws").toList) s
          · simp only [hsub, if_true] at h
            cases hexp : expand_arn env n st s with
            | error e => rw [hexp] at h; cases h
            | ok rs =>
              obtain ⟨r, st2⟩ := rs
              rw [hexp] at h
              exact ih rest st2 _ out st' (hstep _) h
          · simp only [hsub, if_false] at h
            exact ih rest st _ out st' (hstep _) h
        | vdict dd => exact ih rest st _ out st' (hstep _) h
        | vlist l => exact ih rest st _ out st' (hstep _) h
        | vother m => exact ih rest st _ out st' (hstep _) h

/-- The loop of `get_resource_type` is the first case-insensitive match of the
specification table in declared key order. -/
theorem rtLookup_eq_specFirstMatch (table : List (List Char × List (List Char)))
    (target : List Char) : rtLookup table target = specFirstMatch table target := by
  induction table with
  | nil => simp [rtLookup, specFirstMatch]
  | cons kv rest ih =>
    obtain ⟨k, props⟩ := kv
    by_cases h : pyLower k = pyLower target
    · simp [rtLookup, specFirstMatch, h]
    · simp only [rtLookup, specFirstMatch, List.find?_cons] at ih ⊢
      rw [if_neg h]
      have : (decide (pyLower k = pyLower target)) = false := by
        simp [h]
      rw [this]
      exact ih

/-- Case-insensitively equal targets resolve identically. -/
theorem specFirstMatch_congr (table : List (List Char × List (List Char)))
    (t1 t2 : List Char) (h : pyLower t1 = pyLower t2) :
    specFirstMatch table t1 = specFirstMatch table t2 := by
  unfold specFirstMatch
  simp only [h]

/-! ### Claim theorems -/

/-- Claim C4, counterexample: the key `k` occurs in the tree `ctree` (inside a
dict nested in a list), yet the property search does not find it - so the
search does not reach every nesting depth of the tree. -/
theorem c4_counterexample :
    occursKey (("k").toList) ctree = true ∧ get_dict_value (("k").toList) ctree = none :=
  ⟨by with_unfolding_all rfl, by with_unfolding_all rfl⟩

/-- Claim C4, amended: the property search returns the head of the match list
of a deterministic depth-first pre-order traversal that descends through
nested dicts only (not into lists); a key occurring nowhere in the whole tree
is not found; and a key the search does not find is omitted entirely from the
output properties map, never stored as a null entry. -/
theorem c4_amended :
    (∀ (k : List Char) (d : ValDict), get_dict_value k d = (searchMatches k d).head?)
  ∧ (∀ (k : List Char) (d : ValDict), occursKey k d = false → get_dict_value k d = none)
  ∧ (∀ (env : Env) (fuel : Nat) (keys : List (List Char)) (resource : ValDict)
       (st : St) (key : List Char) (out : ValDict) (st' : St),
       get_dict_value key resource = none →
       props_loop env fuel keys resource st [] = .ok (out, st') →
       key ∉ out.map Prod.fst) := by
  refine ⟨gdv_eq_searchMatches, gdv_none_of_not_occurs, ?_⟩
  intro env fuel keys resource st key out st' hnone h
  exact props_loop_omits env key resource hnone fuel keys st [] out st' (by simp) h

/-- Claim C4, witness: the amended theorem evaluated on concrete inputs - the
nested match under `a` wins over the top-level entry, a key absent anywhere is
not found, and an unfound property key is absent from the loop output. -/
theorem c4_witness :
    (get_dict_value (("k").toList) dNested = (searchMatches (("k").toList) dNested).head?)
  ∧ (get_dict_value (("z").toList) dNested = none)
  ∧ (("B").toList ∉ (([] : ValDict)).map Prod.fst) :=
  ⟨c4_amended.1 (("k").toList) dNested,
   c4_amended.2.1 (("z").toList) dNested (by with_unfolding_all rfl),
   c4_amended.2.2 envRole 2 [("B").toList] rA stRole (("B").toList) [] stRole
     (by with_unfolding_all rfl) (by with_unfolding_all rfl)⟩

/-- Claim C5: resource-type resolution builds `AWS::<service>::<resourcetype>`
and is the first case-insensitive match against the specification keys in
declared order (hence deterministic); case-insensitively equal pairs resolve
to the same canonical type and property set; no match yields a not-found
result (`.ok none`). -/
theorem c5_resolution :
    (∀ (env : Env) (m : SDict) (svc rt : List Char),
       dGet m (("service").toList) = some svc →
       dGet m (("resourcetype").toList) = some rt →
       get_resource_type env m =
         .ok (specFirstMatch env.resourceTypes
           ((("AWS::").toList ++ svc ++ ("::").toList ++ rt))))
  ∧ (∀ (env : Env) (m1 m2 : SDict) (s1 r1 s2 r2 : List Char),
       dGet m1 (("service").toList) = some s1 →
       dGet m1 (("resourcetype").toList) = some r1 →
       dGet m2 (("service").toList) = some s2 →
       dGet m2 (("resourcetype").toList) = some r2 →
       pyLower ((("AWS::").toList ++ s1 ++ ("::").toList ++ r1)) =
         pyLower ((("AWS::").toList ++ s2 ++ ("::").toList ++ r2)) →
       get_resource_type env m1 = get_resource_type env m2) := by
  constructor
  · intro env m svc rt h1 h2
    unfold get_resource_type
    rw [h1, h2]
    exact congrArg Except.ok (rtLookup_eq_specFirstMatch _ _)
  · intro env m1 m2 s1 r1 s2 r2 h1 h2 h3 h4 hlow
    unfold get_resource_type
    rw [h1, h2, h3, h4]
    exact congrArg Except.ok ((rtLookup_eq_specFirstMatch _ _).trans
      ((specFirstMatch_congr _ _ _ hlow).trans (rtLookup_eq_specFirstMatch _ _).symm))

/-- Claim C5, witness: `AWS::lambda::function` and `AWS::Lambda::Function`
resolve to the same canonical type and property set in a concrete
specification table. -/
theorem c5_witness :
    (get_resource_type envLambda mLF1 =
       .ok (specFirstMatch envLambda.resourceTypes
         ((("AWS::").toList ++ ("lambda").toList ++ ("::").toList ++ ("function").toList))))
  ∧ get_resource_type envLambda mLF1 = get_resource_type envLambda mLF2 :=
  ⟨c5_resolution.1 envLambda mLF1 (("lambda").toList) (("function").toList) rfl rfl,
   c5_resolution.2 envLambda mLF1 mLF2 (("lambda").toList) (("function").toList)
     (("Lambda").toList) (("Function").toList) rfl rfl rfl rfl (by decide)⟩

/-- Claim C7, counterexample: with the reachable flag `func_type = 1` (set by
any earlier describe-fallback fetch) and a qualifier present, the derived name
comes from the `resource` field, not the qualifier. -/
theorem c7_counterexample :
    get_resource_name (mkSt 1 [] []) mapQual = .ok (("myres").toList)
  ∧ (("myres").toList) ≠ removec '-' (("my-Q").toList)
  ∧ (("myres").toList) ≠ (("my-Q").toList) :=
  ⟨rfl, by decide, by decide⟩

/-- Claim C7, amended: the derived display name is the qualifier only when a
qualifier is present and the instance flag `func_type` is 0; otherwise it is
the `resource` field; in every case all hyphens are removed. -/
theorem c7_amended (st : St) (m : SDict) (rv : List Char)
    (hres : dGet m (("resource").toList) = some rv) :
    (∀ qv, dGet m (("qualifier").toList) = some qv → st.func_type = 0 →
       get_resource_name st m = .ok (removec '-' qv))
  ∧ (dGet m (("qualifier").toList) = none → get_resource_name st m = .ok (removec '-' rv))
  ∧ (st.func_type ≠ 0 → get_resource_name st m = .ok (removec '-' rv)) := by
  refine ⟨?_, ?_, ?_⟩
  · intro qv hq hft
    simp only [get_resource_name, hres, hq, hft]
    rfl
  · intro hq
    simp only [get_resource_name, hres, hq]
  · intro hft
    cases hq : dGet m (("qualifier").toList) with
    | none => simp only [get_resource_name, hres, hq]
    | some qv =>
      simp only [get_resource_name, hres, hq]
      rw [if_neg hft]

/-- Claim C7, witness: with a fresh flag the qualifier (hyphen-stripped) is
the name; with the flag set, the resource field (hyphen-stripped) is. -/
theorem c7_witness :
    get_resource_name (mkSt 0 [] []) mapQual = .ok (removec '-' (("my-Q").toList))
  ∧ get_resource_name (mkSt 1 [] []) mapQual = .ok (removec '-' (("my-res").toList)) :=
  ⟨(c7_amended (mkSt 0 [] []) mapQual (("my-res").toList) rfl).1 (("my-Q").toList) rfl rfl,
   (c7_amended (mkSt 1 [] []) mapQual (("my-res").toList) rfl).2.2 (by decide)⟩

/-- Claim C9: a parsed ARN map without a `resourcetype` key makes the fetch
terminate with the `sys.exit` message "I don\x27t have a way of exporting this
resource: " followed by the argument and the instance ARN string. -/
theorem c9_missing_resourcetype (env : Env) (st : St) (a : List Char) (m : SDict)
    (regv svcv : List Char)
    (hm : argOrSelfMap st a = .ok m)
    (hr : dGet m (("region").toList) = some regv)
    (hs : dGet m (("service").toList) = some svcv)
    (hrt : dGet m (("resourcetype").toList) = none) :
    get_resource_from_arn env st a =
      .error (.exit ((("I don\x27t have a way of exporting this resource: ").toList)
        ++ a ++ st.arn_str)) := by
  have hc : get_aws_client env m = .ok (env.clientFor svcv) := by
    unfold get_aws_client
    rw [hr, hs]
  unfold get_resource_from_arn
  simp only [hm, hc, hrt]

/-- Claim C9, witness: the S3 bucket ARN parses fine (shape 0, no resource
type), and fetching it exits with the export-failure message. -/
theorem c9_witness :
    get_arn_map arnBucket = .ok mBucket
  ∧ get_resource_from_arn envGet (mkSt 0 arnBucket mBucket) [] =
      .error (.exit ((("I don\x27t have a way of exporting this resource: ").toList)
        ++ [] ++ arnBucket)) :=
  ⟨by with_unfolding_all rfl,
   c9_missing_resourcetype envGet (mkSt 0 arnBucket mBucket) [] mBucket
     (("us-east-1").toList) (("s3").toList) rfl rfl rfl rfl⟩

/-- Claim C3: expanding a property whose found value is a string containing
`arn:aws` stores the symbolic reference `!Ref <name>` where `<name>` is the
recursively expanded child resource's derived name, and merges the child
resource dict into the accumulated `cf_resources` map; any other found value
is stored literally, as-is. -/
theorem c3_expansion :
    (∀ (env : Env) (fuel : Nat) (st : St) (a : List Char) (fo : FetchOut)
       (name : List Char) (cfres : ValDict) (st2 : St),
       get_resource_from_arn env st a = .ok fo →
       format_resource env fuel fo.st fo.resource a = .ok (some (name, cfres), st2) →
       expand_arn env (fuel + 1) st a =
         .ok ((("!Ref ").toList ++ name),
           { st2 with cf_resources := dUpdate st2.cf_resources cfres }))
  ∧ (∀ (env : Env) (fuel : Nat) (key : List Char) (rest : List (List Char))
       (resource : ValDict) (st : St) (acc : ValDict) (s r : List Char) (st' : St),
       get_dict_value key resource = some (.vstr s) →
       isSubstr (("arn:aws").toList) s = true →
       expand_arn env fuel st s = .ok (r, st') →
       props_loop env (fuel + 1) (key :: rest) resource st acc =
         props_loop env fuel rest resource st' (dSet acc key (.vstr r)))
  ∧ (∀ (env : Env) (fuel : Nat) (key : List Char) (rest : List (List Char))
       (resource : ValDict) (st : St) (acc : ValDict) (v : Val),
       get_dict_value key resource = some v →
       (∀ s, v = .vstr s → isSubstr (("arn:aws").toList) s = false) →
       props_loop env (fuel + 1) (key :: rest) resource st acc =
         props_loop env fuel rest resource st (dSet acc key v)) := by
  refine ⟨?_, ?_, ?_⟩
  · intro env fuel st a fo name cfres st2 h1 h2
    rw [expand_arn]
    simp only [h1, h2]
  · intro env fuel key rest resource st acc s r st' hkv hsub hexp
    rw [props_loop]
    simp only [hkv, hsub, if_true, hexp]
  · intro env fuel key rest resource st acc v hkv hnosub
    rw [props_loop]
    cases v with
    | vstr s =>
      simp only [hkv, hnosub s rfl]
      rfl
    | vdict d => simp only [hkv]
    | vlist l => simp only [hkv]
    | vother n => simp only [hkv]

/-- Claim C3, witness: expanding the concrete role ARN yields `!Ref myRole`
with the child merged as a sibling into `cf_resources`; a property whose value
is that ARN stores the reference; a plain string property stores the literal. -/
theorem c3_witness :
    expand_arn envRole 4 stRole arnRole =
      .ok ((("!Ref myRole").toList),
        { foRole.st with cf_resources := dUpdate foRole.st.cf_resources cfRole })
  ∧ props_loop envRole 5 [(("Role").toList)] rRole stRole [] =
      props_loop envRole 4 [] rRole stExp
        (dSet [] (("Role").toList) (Val.vstr (("!Ref myRole").toList)))
  ∧ props_loop envRole 3 [(("Handler").toList)] rHandler stRole [] =
      props_loop envRole 2 [] rHandler stRole
        (dSet [] (("Handler").toList) (Val.vstr (("index.handler").toList))) :=
  ⟨c3_expansion.1 envRole 3 stRole arnRole foRole (("myRole").toList) cfRole foRole.st
     (by with_unfolding_all rfl) (by with_unfolding_all rfl),
   c3_expansion.2.1 envRole 4 (("Role").toList) [] rRole stRole []
     arnRole (("!Ref myRole").toList) stExp
     (by with_unfolding_all rfl) (by with_unfolding_all rfl) (by with_unfolding_all rfl),
   c3_expansion.2.2 envRole 2 (("Handler").toList) [] rHandler stRole []
     (Val.vstr (("index.handler").toList))
     (by with_unfolding_all rfl)
     (by intro s h; cases h; with_unfolding_all rfl)⟩

/-- Elimination principle for a successful fetch: the resolved map has
`region`, `service` and `resourcetype`; the operation is `get_<rt>` when the
client has it, else `describe_<rt>s` with `func_type` set to 1 beforehand; one
call is made on the single keyword argument `<Rt.title()>Name` valued by
`get_resource_name` under the updated state. -/
theorem fetch_ok_elim (env : Env) (st : St) (a : List Char) (fo : FetchOut)
    (h : get_resource_from_arn env st a = .ok fo) :
    ∃ (m : SDict) (regv svcv rt : List Char),
      argOrSelfMap st a = .ok m ∧
      dGet m (("region").toList) = some regv ∧
      dGet m (("service").toList) = some svcv ∧
      dGet m (("resourcetype").toList) = some rt ∧
      ∃ (funcName : List Char) (st1 : St) (arg_key : List Char) (resource0 : ValDict),
        ((hasOp (env.clientFor svcv) ((("get_").toList) ++ rt) = true ∧
            funcName = ("get_").toList ++ rt ∧ st1 = st) ∨
         (hasOp (env.clientFor svcv) ((("get_").toList) ++ rt) = false ∧
            hasOp (env.clientFor svcv) ((("describe_").toList) ++ rt ++ ("s").toList) = true ∧
            funcName = ("describe_").toList ++ rt ++ ("s").toList ∧
            st1 = { st with func_type := 1 })) ∧
        get_resource_name st1 m = .ok arg_key ∧
        (env.clientFor svcv).call funcName [(pyTitle rt ++ ("Name").toList, arg_key)] =
          .ok resource0 ∧
        fo = { resource := dRemove resource0 (("ResponseMetadata").toList),
               st := { st1 with
                 raw := dUpdate st1.raw (dRemove resource0 (("ResponseMetadata").toList)) },
               calls := [(funcName, [(pyTitle rt ++ ("Name").toList, arg_key)])] } := by
  unfold get_resource_from_arn at h
  cases hm : argOrSelfMap st a with
  | error e => rw [hm] at h; cases h
  | ok m =>
    rw [hm] at h
    cases hreg : dGet m (("region").toList) with
    | none =>
      simp only [get_aws_client, hreg] at h
      exact Except.noConfusion h
    | some regv =>
      cases hsvc : dGet m (("service").toList) with
      | none =>
        simp only [get_aws_client, hreg, hsvc] at h
        exact Except.noConfusion h
      | some svcv =>
        simp only [get_aws_client, hreg, hsvc] at h
        cases hrt : dGet m (("resourcetype").toList) with
        | none =>
          simp only [hrt] at h
          exact Except.noConfusion h
        | some rt =>
          simp only [hrt] at h
          refine ⟨m, regv, svcv, rt, rfl, hreg, hsvc, hrt, ?_⟩
          by_cases hget : hasOp (env.clientFor svcv) ((("get_").toList) ++ rt) = true
          · rw [if_pos hget] at h
            unfold fetchCall at h
            cases hname : get_resource_name st m with
            | error e =>
              simp only [hname] at h
              exact Except.noConfusion h
            | ok arg_key =>
              simp only [hname] at h
              cases hcall : (env.clientFor svcv).call ((("get_").toList) ++ rt)
                  [(pyTitle rt ++ ("Name").toList, arg_key)] with
              | error e =>
                simp only [hcall] at h
                cases e <;> exact Except.noConfusion h
              | ok resource0 =>
                simp only [hcall] at h
                refine ⟨_, st, arg_key, resource0, Or.inl ⟨hget, rfl, rfl⟩, hname, hcall, ?_⟩
                exact (Except.ok.inj h).symm
          · rw [if_neg hget] at h
            have hget' : hasOp (env.clientFor svcv) ((("get_").toList) ++ rt) = false := by
              revert hget; cases hasOp (env.clientFor svcv) ((("get_").toList) ++ rt) <;> simp
            by_cases hdes : hasOp (env.clientFor svcv)
                ((("describe_").toList) ++ rt ++ ("s").toList) = true
            · rw [if_pos hdes] at h
              unfold fetchCall at h
              cases hname : get_resource_name { st with func_type := 1 } m with
              | error e =>
                simp only [hname] at h
                exact Except.noConfusion h
              | ok arg_key =>
                simp only [hname] at h
                cases hcall : (env.clientFor svcv).call
                    ((("describe_").toList) ++ rt ++ ("s").toList)
                    [(pyTitle rt ++ ("Name").toList, arg_key)] with
                | error e =>
                  simp only [hcall] at h
                  cases e <;> exact Except.noConfusion h
                | ok resource0 =>
                  simp only [hcall] at h
                  refine ⟨_, { st with func_type := 1 }, arg_key, resource0,
                    Or.inr ⟨hget', hdes, rfl, rfl⟩, hname, hcall, ?_⟩
                  exact (Except.ok.inj h).symm
            · rw [if_neg hdes] at h
              exact Except.noConfusion h

/-- A fetch only touches `func_type` (at most setting it to 1) and `raw`;
every other instance field survives. -/
theorem fetch_preserves (env : Env) (st : St) (a : List Char) (fo : FetchOut)
    (h : get_resource_from_arn env st a = .ok fo) :
    fo.st.arn_map = st.arn_map ∧ fo.st.arn_str = st.arn_str ∧
    fo.st.cf_resources = st.cf_resources ∧
    (fo.st.func_type = st.func_type ∨ fo.st.func_type = 1) := by
  obtain ⟨m, regv, svcv, rt, hm, hreg, hsvc, hrt, funcName, st1, arg_key, r0,
    hsel, hname, hcall, hfo⟩ := fetch_ok_elim env st a fo h
  rcases hsel with ⟨-, -, hst1⟩ | ⟨-, -, -, hst1⟩ <;> subst hst1 <;> rw [hfo] <;> simp

/-- The `func_type` flag, once 1, stays 1 through the whole expansion walk. -/
theorem funcType_stable (env : Env) : ∀ fuel : Nat,
    (∀ (st : St) (resource : ValDict) (a : List Char) r (st' : St), st.func_type = 1 →
      format_resource env fuel st resource a = .ok (r, st') → st'.func_type = 1)
  ∧ (∀ (keys : List (List Char)) (resource : ValDict) (st : St) (acc out : ValDict)
       (st' : St), st.func_type = 1 →
      props_loop env fuel keys resource st acc = .ok (out, st') → st'.func_type = 1)
  ∧ (∀ (st : St) (a r : List Char) (st' : St), st.func_type = 1 →
      expand_arn env fuel st a = .ok (r, st') → st'.func_type = 1) := by
  intro fuel
  induction fuel with
  | zero =>
    refine ⟨?_, ?_, ?_⟩
    · intro st resource a r st' hft h; simp [format_resource] at h
    · intro keys resource st acc out st' hft h; simp [props_loop] at h
    · intro st a r st' hft h; simp [expand_arn] at h
  | succ n ih =>
    obtain ⟨ihf, ihp, ihe⟩ := ih
    refine ⟨?_, ?_, ?_⟩
    · -- format_resource at n+1
      intro st resource a r st' hft h
      rw [format_resource] at h
      cases hm : argOrSelfMap st a with
      | error e => simp only [hm] at h; exact Except.noConfusion h
      | ok arn_map =>
        simp only [hm] at h
        cases hrt : get_resource_type env arn_map with
        | error e => simp only [hrt] at h; exact Except.noConfusion h
        | ok o =>
          simp only [hrt] at h
          cases o with
          | none =>
            obtain ⟨-, h2⟩ := Prod.mk.inj (Except.ok.inj h)
            rw [← h2]; exact hft
          | some resource_type =>
            cases hname : get_resource_name st arn_map with
            | error e => simp only [hname] at h; exact Except.noConfusion h
            | ok resource_name =>
              simp only [hname] at h
              cases hpl : props_loop env n resource_type.props resource st [] with
              | error e => simp only [hpl] at h; exact Except.noConfusion h
              | ok pr =>
                obtain ⟨props, st2⟩ := pr
                simp only [hpl] at h
                obtain ⟨-, h2⟩ := Prod.mk.inj (Except.ok.inj h)
                rw [← h2]
                exact ihp resource_type.props resource st [] props st2 hft hpl
    · -- props_loop at n+1
      intro keys resource st acc out st' hft h
      cases keys with
      | nil =>
        simp only [props_loop] at h
        obtain ⟨-, h2⟩ := Prod.mk.inj (Except.ok.inj h)
        rw [← h2]; exact hft
      | cons key rest =>
        rw [props_loop] at h
        cases hkv : get_dict_value key resource with
        | none =>
          simp only [hkv] at h
          exact ihp rest resource st acc out st' hft h
        | some v =>
          simp only [hkv] at h
          cases v with
          | vstr s =>
            by_cases hsub : isSubstr (("arn:aws").toList) s = true
            · simp only [hsub, if_true] at h
              cases hexp2 : expand_arn env n st s with
              | error e => simp only [hexp2] at h; exact Except.noConfusion h
              | ok rs =>
                obtain ⟨r2, st2⟩ := rs
                simp only [hexp2] at h
                have h2 : st2.func_type = 1 := ihe st s r2 st2 hft hexp2
                exact ihp rest resource st2 _ out st' h2 h
            · have hsub' : isSubstr (("arn:aws").toList) s = false := by
                revert hsub; cases isSubstr (("arn:aws").toList) s <;> simp
              simp only [hsub', if_false] at h
              exact ihp rest resource st _ out st' hft h
          | vdict d => exact ihp rest resource st _ out st' hft h
          | vlist l => exact ihp rest resource st _ out st' hft h
          | vother k => exact ihp rest resource st _ out st' hft h
    · -- expand_arn at n+1
      intro st a r st' hft h
      rw [expand_arn] at h
      cases hfo : get_resource_from_arn env st a with
      | error e => simp only [hfo] at h; exact Except.noConfusion h
      | ok fo =>
        simp only [hfo] at h
        have hfo1 : fo.st.func_type = 1 := by
          rcases (fetch_preserves env st a fo hfo).2.2.2 with h1 | h1
          · rw [h1, hft]
          · exact h1
        cases hfmt : format_resource env n fo.st fo.resource a with
        | error e => simp only [hfmt] at h; exact Except.noConfusion h
        | ok pr =>
          obtain ⟨opt, st2⟩ := pr
          simp only [hfmt] at h
          cases opt with
          | none => exact Except.noConfusion h
          | some pr2 =>
            obtain ⟨name, cfres⟩ := pr2
            have h2 : st2.func_type = 1 := ihf fo.st fo.resource a _ st2 hfo1 hfmt
            obtain ⟨-, h3⟩ := Prod.mk.inj (Except.ok.inj h)
            rw [← h3]
            exact h2

/-- Claim C10: fetching through the describe-plural fallback sets the
instance-wide `func_type` flag to 1; no fetch and no step of the expansion
walk ever resets it; and once it is 1 every name derivation uses the
`resource` field (hyphens stripped) even when a qualifier is present - so a
derived name depends on which operations earlier fetches in the run used. -/
theorem c10_func_type_flag :
    (∀ (env : Env) (st : St) (a : List Char) (m : SDict) (regv svcv rt : List Char)
       (fo : FetchOut),
       argOrSelfMap st a = .ok m →
       dGet m (("region").toList) = some regv →
       dGet m (("service").toList) = some svcv →
       dGet m (("resourcetype").toList) = some rt →
       hasOp (env.clientFor svcv) ((("get_").toList) ++ rt) = false →
       get_resource_from_arn env st a = .ok fo →
       fo.st.func_type = 1)
  ∧ (∀ (env : Env) (st : St) (a : List Char) (fo : FetchOut), st.func_type = 1 →
       get_resource_from_arn env st a = .ok fo → fo.st.func_type = 1)
  ∧ (∀ (env : Env) (fuel : Nat) (st : St) (resource : ValDict) (a : List Char) r
       (st' : St), st.func_type = 1 →
       format_resource env fuel st resource a = .ok (r, st') → st'.func_type = 1)
  ∧ (∀ (st : St) (m : SDict) (rv : List Char), st.func_type = 1 →
       dGet m (("resource").toList) = some rv →
       get_resource_name st m = .ok (removec '-' rv)) := by
  refine ⟨?_, ?_, ?_, ?_⟩
  · intro env st a m regv svcv rt fo hm hreg hsvc hrt hget h
    obtain ⟨m', regv', svcv', rt', hm', hreg', hsvc', hrt', funcName, st1, arg_key, r0,
      hsel, hname, hcall, hfo⟩ := fetch_ok_elim env st a fo h
    rw [hm] at hm'
    obtain rfl := (Except.ok.inj hm')
    rw [hrt] at hrt'
    obtain rfl := (Option.some.inj hrt')
    rw [hsvc] at hsvc'
    obtain rfl := (Option.some.inj hsvc')
    rcases hsel with ⟨hop, -, -⟩ | ⟨-, -, -, hst1⟩
    · rw [hget] at hop; exact Bool.noConfusion hop
    · rw [hfo]; subst hst1; rfl
  · intro env st a fo hft h
    rcases (fetch_preserves env st a fo h).2.2.2 with h1 | h1
    · rw [h1, hft]
    · exact h1
  · intro env fuel st resource a r st' hft h
    exact (funcType_stable env fuel).1 st resource a r st' hft h
  · intro st m rv hft hrv
    cases hq : dGet m (("qualifier").toList) with
    | none => simp only [get_resource_name, hrv, hq]
    | some qv =>
      simp only [get_resource_name, hrv, hq, hft]
      rfl

/-- Claim C10, witness: the concrete describe-fallback fetch ends with
`func_type = 1`; a further fetch and a formatting pass keep the flag; and name
derivation under the set flag yields the hyphen-stripped resource field
although the qualifier `my-Q` is present. -/
theorem c10_witness :
    foQualDescribe.st.func_type = 1
  ∧ foQualGet1.st.func_type = 1
  ∧ stRole1.func_type = 1
  ∧ get_resource_name (mkSt 1 [] []) mapQual = .ok (removec '-' (("my-res").toList)) :=
  ⟨c10_func_type_flag.1 envDescribe stQual [] mapQual (("us-east-1").toList)
     (("lambda").toList) (("function").toList) foQualDescribe rfl rfl rfl rfl rfl
     (by with_unfolding_all rfl),
   c10_func_type_flag.2.1 envGet (mkSt 1 [] mapQual) [] foQualGet1 rfl
     (by with_unfolding_all rfl),
   c10_func_type_flag.2.2.1 envRole 3 stRole1 foRole.resource arnRole
     (some ((("myRole").toList), cfRole)) stRole1 rfl (by with_unfolding_all rfl),
   c10_func_type_flag.2.2.2 (mkSt 1 [] []) mapQual (("my-res").toList) rfl rfl⟩

/-- Claim C6, counterexample: with a qualifier `my-Q` present and the
`get_function` operation available, the single keyword argument is valued
`myQ` - the hyphen-stripped qualifier - which is neither the qualifier nor
the resource name verbatim, refuting "the value is the qualifier if present,
else the resource name". -/
theorem c6_counterexample :
    get_resource_from_arn envGet stQual [] = .ok foQualGet
  ∧ foQualGet.calls =
      [(("get_function").toList, [(("FunctionName").toList, ("myQ").toList)])]
  ∧ (("myQ").toList) ≠ (("my-Q").toList)
  ∧ (("myQ").toList) ≠ (("my-res").toList) :=
  ⟨by with_unfolding_all rfl, rfl, by decide, by decide⟩

/-- Claim C6, amended: a successful fetch selects `get_<resourcetype>` when
the client has it and `describe_<resourcetype>s` otherwise, performs exactly
one operation invocation, and passes exactly one keyword argument named
`<Resourcetype.title()>Name` whose value is `get_resource_name` of the state
after operation selection: the hyphen-stripped qualifier only when one is
present and `func_type` is still 0 (the fallback sets it to 1 first), else
the hyphen-stripped resource field. -/
theorem c6_amended (env : Env) (st : St) (a : List Char) (m : SDict)
    (regv svcv rt : List Char) (fo : FetchOut)
    (hm : argOrSelfMap st a = .ok m)
    (_hreg : dGet m (("region").toList) = some regv)
    (hsvc : dGet m (("service").toList) = some svcv)
    (hrt : dGet m (("resourcetype").toList) = some rt)
    (h : get_resource_from_arn env st a = .ok fo) :
    ∃ arg_key : List Char,
      get_resource_name
        (if hasOp (env.clientFor svcv) ((("get_").toList) ++ rt) = true then st
         else { st with func_type := 1 }) m = .ok arg_key
    ∧ fo.calls =
        [((if hasOp (env.clientFor svcv) ((("get_").toList) ++ rt) = true
           then ("get_").toList ++ rt
           else ("describe_").toList ++ rt ++ ("s").toList),
          [(pyTitle rt ++ ("Name").toList, arg_key)])]
    ∧ fo.calls.length = 1 := by
  obtain ⟨m', regv', svcv', rt', hm', hreg', hsvc', hrt', funcName, st1, arg_key, r0,
    hsel, hname, hcall, hfo⟩ := fetch_ok_elim env st a fo h
  rw [hm] at hm'
  obtain rfl := (Except.ok.inj hm')
  rw [hrt] at hrt'
  obtain rfl := (Option.some.inj hrt')
  rw [hsvc] at hsvc'
  obtain rfl := (Option.some.inj hsvc')
  refine ⟨arg_key, ?_, ?_, ?_⟩
  · rcases hsel with ⟨hop, -, hst1⟩ | ⟨hop, -, -, hst1⟩
    · rw [if_pos hop, ← hst1]; exact hname
    · rw [if_neg (by rw [hop]; exact Bool.false_ne_true), ← hst1]; exact hname
  · rcases hsel with ⟨hop, hfn, -⟩ | ⟨hop, -, hfn, -⟩
    · rw [hfo, if_pos hop, ← hfn]
    · rw [hfo, if_neg (by rw [hop]; exact Bool.false_ne_true), ← hfn]
  · rw [hfo]; rfl

/-- Claim C6, witness: the amended theorem on the concrete get-only fetch -
one call, to `get_function`, with the single argument `FunctionName` valued
by `get_resource_name` (here the hyphen-stripped qualifier). -/
theorem c6_witness :
    ∃ arg_key : List Char,
      get_resource_name
        (if hasOp (envGet.clientFor (("lambda").toList))
             ((("get_").toList) ++ (("function").toList)) = true then stQual
         else { stQual with func_type := 1 }) mapQual = .ok arg_key
    ∧ foQualGet.calls =
        [((if hasOp (envGet.clientFor (("lambda").toList))
              ((("get_").toList) ++ (("function").toList)) = true
           then ("get_").toList ++ (("function").toList)
           else ("describe_").toList ++ (("function").toList) ++ ("s").toList),
          [(pyTitle (("function").toList) ++ ("Name").toList, arg_key)])]
    ∧ foQualGet.calls.length = 1 :=
  c6_amended envGet stQual [] mapQual (("us-east-1").toList) (("lambda").toList)
    (("function").toList) foQualGet rfl rfl rfl rfl (by with_unfolding_all rfl)

/-- Claim C8: when the top-level service/resourcetype pair is absent from the
specification document, the run fails (here with the `TypeError` from
subscripting the `None` returned by `format_resource`, or with an earlier
fetch failure) and no output file is written. -/
theorem c8_unknown_type (env : Env) (fuel : Nat) (st : St) (svcv rt : List Char)
    (hsvc : dGet st.arn_map (("service").toList) = some svcv)
    (hrt : dGet st.arn_map (("resourcetype").toList) = some rt)
    (hmiss : rtLookup env.resourceTypes
      ((("AWS::").toList ++ svcv ++ ("::").toList ++ rt)) = none) :
    (write_yaml_template env fuel st).1 = [] ∧
    ∃ e, (write_yaml_template env fuel st).2 = .error e := by
  unfold write_yaml_template
  cases hfo : get_resource_from_arn env st [] with
  | error e => exact ⟨rfl, e, rfl⟩
  | ok fo =>
    have hmap : fo.st.arn_map = st.arn_map := (fetch_preserves env st [] fo hfo).1
    cases fuel with
    | zero =>
      simp only [format_resource]
      exact ⟨trivial, .fuelOut, rfl⟩
    | succ n =>
      have hres : argOrSelfMap fo.st [] = .ok fo.st.arn_map := rfl
      have hgrt : get_resource_type env fo.st.arn_map = .ok none := by
        unfold get_resource_type
        rw [hmap]
        simp only [hsvc, hrt, hmiss]
      have hfmt : format_resource env (n + 1) fo.st fo.resource [] = .ok (none, fo.st) := by
        rw [format_resource]
        simp only [hres, hgrt]
      simp only [hfmt]
      exact ⟨trivial, .typeError, rfl⟩

/-- Claim C8, witness: against an empty specification table, exporting the
Lambda ARN writes no file and ends in an error. -/
theorem c8_witness :
    (write_yaml_template envGet 3 (mkSt 0 arnFn mFn)).1 = [] ∧
    ∃ e, (write_yaml_template envGet 3 (mkSt 0 arnFn mFn)).2 = .error e :=
  c8_unknown_type envGet 3 (mkSt 0 arnFn mFn) (("lambda").toList) (("function").toList)
    rfl rfl rfl

/-- Python indexing into the seven templates, case-split on the sign. -/
theorem pyGet_arn_resources (i : Int) :
    pyGet arn_resources i =
      if i < 0 then
        (if i + 7 < 0 then none else arn_resources.get? (i + 7).toNat)
      else arn_resources.get? i.toNat := by
  unfold pyGet
  have hlen : ((arn_resources.length : Int)) = 7 := rfl
  by_cases h : i < 0
  · simp only [h, if_true, hlen]
  · simp only [h, if_false]

/-- Claim C2, counterexample: a thirteen-field string maps to shape index 7
and parsing fails with the uncaught `IndexError` - precisely the generic
crash the claim rules out - while `foo` maps to index -5 yet parses without
any error at all, through the wrapped-around template at position 2. -/
theorem c2_counterexample :
    get_arn_map manyColons = .error .indexError
  ∧ shapeIndex manyColons = 7
  ∧ get_arn_map (("foo").toList) = .ok [(("arn").toList, ("foo").toList)]
  ∧ shapeIndex (("foo").toList) = -5 :=
  ⟨by with_unfolding_all rfl, by decide, by with_unfolding_all rfl, by decide⟩

/-- Claim C2, amended: there is no named shape error; an ARN whose delimiter
counts give a shape index of 7 or more, or below -7, makes parsing fail with
the uncaught `IndexError`, while an index in -7..-1 silently wraps around
(Python negative indexing) and selects the template at position index+7, so
parsing does not fail at template selection at all. -/
theorem c2_amended (s : List Char) :
    (7 ≤ shapeIndex s ∨ shapeIndex s < -7 → get_arn_map s = .error .indexError)
  ∧ (-7 ≤ shapeIndex s → shapeIndex s < 0 →
      pyGet arn_resources (shapeIndex s) =
        arn_resources.get? (shapeIndex s + 7).toNat
      ∧ (pyGet arn_resources (shapeIndex s)).isSome = true) := by
  constructor
  · intro h
    have hnone : pyGet arn_resources (shapeIndex s) = none := by
      rw [pyGet_arn_resources]
      rcases h with h | h
      · rw [if_neg (by omega)]
        exact List.get?_eq_none.mpr (by show 7 ≤ _; omega)
      · rw [if_pos (by omega), if_pos (by omega)]
    unfold get_arn_map
    simp only [hnone]
  · intro h1 h2
    have hget : pyGet arn_resources (shapeIndex s) =
        arn_resources.get? (shapeIndex s + 7).toNat := by
      rw [pyGet_arn_resources, if_pos h2, if_neg (by omega)]
    refine ⟨hget, ?_⟩
    rw [hget]
    rw [List.get?_eq_getElem?]
    rw [List.getElem?_eq_getElem (by show _ < 7; omega)]
    rfl

/-- Claim C2, witness: the amended theorem at the two concrete inputs - index
7 crashes with `IndexError`, index -5 wraps around to a template. -/
theorem c2_witness :
    get_arn_map manyColons = .error PyErr.indexError
  ∧ pyGet arn_resources (shapeIndex (("foo").toList)) =
      arn_resources.get? (shapeIndex (("foo").toList) + 7).toNat
  ∧ (pyGet arn_resources (shapeIndex (("foo").toList))).isSome = true :=
  ⟨(c2_amended manyColons).1 (Or.inl (by decide)),
   ((c2_amended (("foo").toList)).2 (by decide) (by decide)).1,
   ((c2_amended (("foo").toList)).2 (by decide) (by decide)).2⟩

/-- Counting distributes over append. -/
theorem countc_append (c : Char) (a b : List Char) :
    countc c (a ++ b) = countc c a + countc c b := by
  induction a with
  | nil => simp [countc]
  | cons x xs ih => simp [countc, ih]; omega

/-- A character absent from a string is counted zero times. -/
theorem countc_eq_zero_of_not_mem (c : Char) (s : List Char) (h : c ∉ s) :
    countc c s = 0 := by
  induction s with
  | nil => rfl
  | cons x xs ih =>
    simp at h
    simp [countc, ih h.2]
    intro he
    exact absurd he.symm h.1

/-- Counting a delimiter in a joined string counts only the delimiters, when
every segment is free of it. -/
theorem countc_joinWith (c : Char) : ∀ (ds : List Char) (ss : List (List Char)),
    ss.length = ds.length + 1 → (∀ x ∈ ss, c ∉ x) →
    countc c (joinWith ds ss) = countc c ds := by
  intro ds ss
  induction ss generalizing ds with
  | nil => intro hlen hfree; simp at hlen
  | cons s ss' ih =>
    intro hlen hfree
    cases ss' with
    | nil =>
      have : ds = [] := by
        cases ds with
        | nil => rfl
        | cons d ds'' => simp at hlen
      subst this
      simp [joinWith, countc, countc_eq_zero_of_not_mem c s (hfree s (by simp))]
    | cons s2 ss'' =>
      cases ds with
      | nil => simp at hlen
      | cons d ds' =>
        have h1 : joinWith (d :: ds') (s :: s2 :: ss'') = s ++ d :: joinWith ds' (s2 :: ss'') := rfl
        rw [h1, countc_append]
        rw [countc_eq_zero_of_not_mem c s (hfree s (by simp))]
        show 0 + countc c (d :: joinWith ds' (s2 :: ss'')) = countc c (d :: ds')
        have h2 : countc c (d :: joinWith ds' (s2 :: ss'')) =
            (if d = c then 1 else 0) + countc c (joinWith ds' (s2 :: ss'')) := rfl
        have h3 : countc c (d :: ds') = (if d = c then 1 else 0) + countc c ds' := rfl
        rw [h2, h3, ih ds' (by simpa using hlen) (fun x hx => hfree x (by simp at hx ⊢; tauto))]
        omega

/-- Replacement distributes over append. -/
theorem replacec_append (a b : Char) (x y : List Char) :
    replacec a b (x ++ y) = replacec a b x ++ replacec a b y := by
  induction x with
  | nil => rfl
  | cons c cs ih => simp [replacec, ih]

/-- Replacing a character absent from a string is the identity. -/
theorem replacec_id_of_not_mem (a b : Char) (s : List Char) (h : a ∉ s) :
    replacec a b s = s := by
  induction s with
  | nil => rfl
  | cons c cs ih =>
    simp at h
    simp [replacec, ih h.2]
    intro he
    exact absurd he.symm h.1

/-- Replacement preserves length. -/
theorem replacec_length (a b : Char) (s : List Char) :
    (replacec a b s).length = s.length := by
  induction s with
  | nil => rfl
  | cons c cs ih => simp [replacec, ih]

/-- Replacement maps through a join, replacing delimiters and segments. -/
theorem replacec_joinWith (a b : Char) : ∀ (ds : List Char) (ss : List (List Char)),
    replacec a b (joinWith ds ss) =
      joinWith (replacec a b ds) (ss.map (replacec a b)) := by
  intro ds ss
  induction ss generalizing ds with
  | nil => simp [joinWith, replacec]
  | cons s ss' ih =>
    cases ss' with
    | nil => simp [joinWith]
    | cons s2 ss'' =>
      cases ds with
      | nil =>
        show replacec a b (s ++ joinWith [] (s2 :: ss'')) = _
        rw [replacec_append, ih []]
        rfl
      | cons d ds' =>
        show replacec a b (s ++ d :: joinWith ds' (s2 :: ss'')) = _
        rw [replacec_append]
        show _ ++ ((if d = a then b else d) :: replacec a b (joinWith ds' (s2 :: ss''))) = _
        rw [ih ds']
        rfl

/-- Segments free of the replaced character survive a mapped replacement. -/
theorem map_replacec_id (a b : Char) (ss : List (List Char))
    (h : ∀ x ∈ ss, a ∉ x) : ss.map (replacec a b) = ss := by
  induction ss with
  | nil => rfl
  | cons s ss' ih =>
    simp only [List.map_cons]
    rw [replacec_id_of_not_mem a b s (h s (by simp)), ih (fun x hx => h x (by simp [hx]))]

/-- A split never yields the empty list. -/
theorem splitc_ne_nil (sep : Char) (l : List Char) : splitc sep l ≠ [] := by
  cases l with
  | nil => simp [splitc]
  | cons c cs =>
    simp only [splitc]
    cases splitc sep cs with
    | nil => simp
    | cons g gs =>
      by_cases h : c = sep <;> simp [h]

/-- Splitting after a separator-free leading block prepends the block to the
first field. -/
theorem splitc_append_of_not_mem (sep : Char) (s : List Char) (hs : sep ∉ s) :
    ∀ (l : List Char) (g : List Char) (gs : List (List Char)),
      splitc sep l = g :: gs → splitc sep (s ++ l) = (s ++ g) :: gs := by
  induction s with
  | nil => intro l g gs h; simpa using h
  | cons c cs ih =>
    intro l g gs h
    simp at hs
    show splitc sep (c :: (cs ++ l)) = ((c :: cs) ++ g) :: gs
    simp only [splitc]
    rw [ih hs.2 l g gs h]
    have : ¬c = sep := fun he => hs.1 he.symm
    simp [this]

/-- Splitting a join on the separator recovers the segments exactly, when
every delimiter is the separator and every segment is free of it. -/
theorem splitc_joinWith (sep : Char) : ∀ (ds : List Char) (ss : List (List Char)),
    (∀ d ∈ ds, d = sep) → ss.length = ds.length + 1 → (∀ x ∈ ss, sep ∉ x) →
    splitc sep (joinWith ds ss) = ss := by
  intro ds ss
  induction ss generalizing ds with
  | nil => intro hsep hlen hfree; simp at hlen
  | cons s ss' ih =>
    intro hsep hlen hfree
    cases ss' with
    | nil =>
      have hds : ds = [] := by
        cases ds with
        | nil => rfl
        | cons d ds'' => simp at hlen
      subst hds
      show splitc sep s = [s]
      have h0 : splitc sep ([] : List Char) = [] :: [] := rfl
      have h1 := splitc_append_of_not_mem sep s (hfree s (by simp)) [] [] [] h0
      simpa using h1
    | cons s2 ss'' =>
      cases ds with
      | nil => simp at hlen
      | cons d ds' =>
        have hd : d = sep := hsep d (by simp)
        subst hd
        show splitc d (s ++ d :: joinWith ds' (s2 :: ss'')) = s :: s2 :: ss''
        have hrest : splitc d (joinWith ds' (s2 :: ss'')) = s2 :: ss'' :=
          ih ds' (fun x hx => hsep x (by simp [hx])) (by simpa using hlen)
            (fun x hx => hfree x (by simp at hx ⊢; tauto))
        have hcons : splitc d (d :: joinWith ds' (s2 :: ss'')) =
            [] :: s2 :: ss'' := by
          simp only [splitc]
          rw [hrest]
          simp
        have := splitc_append_of_not_mem d s (hfree s (by simp))
          (d :: joinWith ds' (s2 :: ss'')) [] (s2 :: ss'') hcons
        simpa using this

/-- Writing an absent key appends the pair at the end. -/
theorem dSet_append_of_not_mem {α : Type} (m : List (List Char × α)) (k : List Char)
    (v : α) (h : k ∉ m.map Prod.fst) : dSet m k v = m ++ [(k, v)] := by
  induction m with
  | nil => rfl
  | cons kv rest ih =>
    obtain ⟨k', v'⟩ := kv
    rw [List.map_cons] at h
    simp only [List.mem_cons] at h
    push_neg at h
    rw [dSet_cons, if_neg (fun he => h.1 he.symm), ih h.2]
    simp

/-- The assignment loop over distinct fresh keys produces exactly the zip. -/
theorem assignLoop_eq_zip : ∀ (ks vs : List (List Char)) (m : SDict),
    ks.length = vs.length → ks.Nodup → (∀ k ∈ ks, k ∉ m.map Prod.fst) →
    assignLoop ks vs m = .ok (m ++ ks.zip vs) := by
  intro ks
  induction ks with
  | nil =>
    intro vs m hlen hnd hfresh
    cases vs with
    | nil => simp [assignLoop]
    | cons v vs' => simp at hlen
  | cons k ks' ih =>
    intro vs m hlen hnd hfresh
    cases vs with
    | nil => simp at hlen
    | cons v vs' =>
      show assignLoop ks' vs' (dSet m k v) = .ok (m ++ (k, v) :: ks'.zip vs')
      rw [dSet_append_of_not_mem m k v (hfresh k (by simp))]
      rw [List.nodup_cons] at hnd
      rw [ih vs' (m ++ [(k, v)]) (by simpa using hlen) hnd.2 ?_]
      · simp
      · intro k' hk'
        simp only [List.map_append, List.mem_append]
        rintro (hmem | hmem)
        · exact hfresh k' (by simp [hk']) hmem
        · simp at hmem
          exact hnd.1 (hmem ▸ hk')

/-- Master shape lemma: a string assembled from delimiter-free segments with
the delimiters `ds` parses into the zip of the selected template keys with
the segments. -/
theorem get_arn_map_joinWith (ds arn_suffix : List Char) (segs : List (List Char))
    (hfree : ∀ x ∈ segs, ':' ∉ x ∧ '/' ∉ x)
    (hlen : segs.length = ds.length + 1)
    (hsel : pyGet arn_resources
      (((countc ':' ds : Int) - (countc ':' arn_common : Int)) +
        (countc '/' ds : Int) * 3) = some arn_suffix)
    (hsep : ∀ d ∈ replacec '/' ':' ds, d = ':')
    (hkl : (splitc ':' (replacec '/' ':' (arn_common ++ arn_suffix))).length = ds.length + 1)
    (hnd : (splitc ':' (replacec '/' ':' (arn_common ++ arn_suffix))).Nodup) :
    get_arn_map (joinWith ds segs) =
      .ok (List.zip (splitc ':' (replacec '/' ':' (arn_common ++ arn_suffix))) segs) := by
  have hc : countc ':' (joinWith ds segs) = countc ':' ds :=
    countc_joinWith ':' ds segs hlen (fun x hx => (hfree x hx).1)
  have hs : countc '/' (joinWith ds segs) = countc '/' ds :=
    countc_joinWith '/' ds segs hlen (fun x hx => (hfree x hx).2)
  have hidx : shapeIndex (joinWith ds segs) =
      ((countc ':' ds : Int) - (countc ':' arn_common : Int)) +
        (countc '/' ds : Int) * 3 := by
    unfold shapeIndex
    rw [hc, hs]
  have hvals : splitc ':' (replacec '/' ':' (joinWith ds segs)) = segs := by
    rw [replacec_joinWith]
    rw [map_replacec_id '/' ':' segs (fun x hx => (hfree x hx).2)]
    exact splitc_joinWith ':' (replacec '/' ':' ds) segs hsep
      (by rw [replacec_length]; exact hlen) (fun x hx => (hfree x hx).1)
  unfold get_arn_map
  rw [hidx]
  simp only [hsel]
  rw [hvals]
  rw [assignLoop_eq_zip _ segs [] (by rw [hkl, hlen]) hnd (by simp)]
  simp

/-- Claim C1, counterexample: the parsed map of the shape-1 example carries
the extra entry `arn` (the literal first template key), so its keys are not
exactly the declared field list; and a string matching the degenerate
shape-5 template (canonical prefix with trailing colon, empty suffix) has
five colons, selects template 0 instead, and binds `resource` to the empty
final segment. -/
theorem c1_counterexample :
    get_arn_map arnFn = .ok mFn
  ∧ mFn.map Prod.fst ≠
      [("partition").toList, ("service").toList, ("region").toList,
       ("account-id").toList, ("resourcetype").toList, ("resource").toList]
  ∧ dGet mFn (("arn").toList) = some (("arn").toList)
  ∧ get_arn_map (("arn:aws:s3:us-east-1:123456789012:").toList) =
      .ok [(("arn").toList, ("arn").toList), (("partition").toList, ("aws").toList),
           (("service").toList, ("s3").toList),
           (("region").toList, ("us-east-1").toList),
           (("account-id").toList, ("123456789012").toList),
           (("resource").toList, [])] :=
  ⟨by with_unfolding_all rfl, by decide, rfl, by with_unfolding_all rfl⟩

/-- Claim C1, amended: for the six reachable shapes (0-4 and 6; the empty
template 5 is never selected by a string assembled from its own template,
which carries five colons and selects shape 0 instead), a string assembled
from delimiter-free segments with the shape's delimiters parses to exactly
the zip of the shape's key list with the input segments, in order - where the
key list is the literal first key `arn` followed by `partition`, `service`,
`region`, `account-id` and the shape's suffix fields. -/
theorem c1_amended : ∀ i ∈ ([0, 1, 2, 3, 4, 6] : List Nat),
    (∀ segs : List (List Char),
      (∀ x ∈ segs, ':' ∉ x ∧ '/' ∉ x) →
      segs.length = (shapeDelims i).length + 1 →
      get_arn_map (joinWith (shapeDelims i) segs) = .ok (List.zip (shapeKeys i) segs))
  ∧ shapeKeys i = arnFieldNames i := by
  intro i hi
  fin_cases hi <;>
    exact ⟨fun segs hfree hlen =>
      get_arn_map_joinWith _ _ segs hfree hlen (by decide) (by decide) (by decide)
        (by decide), by decide⟩

/-- Claim C1, witness: the shape-1 Lambda example assembled from its seven
segments parses to the zip of the shape-1 keys with those segments. -/
theorem c1_witness :
    get_arn_map (joinWith (shapeDelims 1) segsFn) = .ok ((shapeKeys 1).zip segsFn)
  ∧ shapeKeys 1 = arnFieldNames 1 :=
  ⟨(c1_amended 1 (by decide)).1 segsFn (by decide) (by decide),
   (c1_amended 1 (by decide)).2⟩
